import Mathlib

/-!
Verification of the data-transformation core of the raid-performance dashboard
(src/dashboard.py) against its specification.

The dashboard is a pandas/streamlit script.  We shallow-embed the genuine
data-transformation logic:

* player records are JSON objects: a name, plus an open set of fields holding
  either numbers or strings (dashboard.py lines 49-61);
* the loading loop tags each record with its session (report) name, skips the
  reserved "Total" row, and turns a per-file failure into a warning
  (lines 49-61);
* the working table is either the raw concatenation (Single Report mode,
  line 71) or a sum-aggregation grouped by player name (lines 79-93);
* the ranking views select the name column and one numeric column, keep
  strictly positive values, sort descending and take the first n rows
  (top_table, lines 97-109, and bar_chart, lines 111-118).

Pandas semantics embedded here, with the source of each choice:

* a missing key of one record becomes a null (NaN) cell in the data frame,
  modelled as `none` (pd.DataFrame on a list of dicts);
* a column is numeric exactly when every present value in it is a number
  (dtype inference + select_dtypes(include=[np.number]), line 79);
* groupby(...).agg with sum skips nulls and sums an all-null group to 0
  (lines 82-85); groupby(...).first() takes the first non-null value of the
  group, not the value of the first row (line 90); groupby sorts the group
  keys ascending (sort=True default, line 82);
* sort_values(by=col, ascending=False) at lines 102 and 116 passes no kind,
  so pandas uses its default kind=quicksort, which pandas and numpy document
  as NOT stable: the relative order of rows with equal keys is unspecified
  (numpy introsort only happens to act stably below its small-array
  insertion-sort cutoff).  The sort is therefore modelled as a contract,
  SortValuesDescSpec: any descending permutation of the rows.  The function
  sortValuesDesc is one admissible realization of that contract (a stable
  kernel run through the nargsort reverse/sort/reverse scheme), kept for
  concrete evaluation; no theorem treats its tie order as the program
  semantics;
* the view calls pass hard-coded column names (lines 129-244).  On a column
  absent from the frame, df[["name", column]] raises KeyError; on a column
  of object dtype (one holding any string), the query comparison with 0
  raises TypeError.  Either uncaught exception halts the page render; this
  crash path is modelled by viewCheck, firstViewError and renderFullPage.
-/

namespace Dashboard

/-- Scalar values that occur in a player record of a report file: JSON
numbers (modelled as rationals) and strings. -/
inductive Val where
  | num (q : ℚ)
  | str (s : String)
deriving DecidableEq, Repr

/-- True exactly on numeric values. -/
def Val.isNum : Val → Bool
  | .num _ => true
  | .str _ => false

/-- One player record after loading: the mandatory name, the session
(report) name stamped on it by the loading loop (dashboard.py line 58), and
the remaining fields of the JSON object (the open-ended statistic
columns). -/
structure PRecord where
  name : String
  report_name : String
  fields : List (String × Val)
deriving DecidableEq, Repr

/-- Dictionary lookup on the fields of a record: the value stored under a
key, or `none` when the key is absent.  An absent key is exactly what pandas
renders as a NaN cell of the data frame built from the list of records. -/
def lookupField : List (String × Val) → String → Option Val
  | [], _ => none
  | (k, v) :: kvs, c => if k = c then some v else lookupField kvs c

/-- Cell of the data frame at a record row and a column name. -/
def getCell (r : PRecord) (c : String) : Option Val :=
  lookupField r.fields c

/-- One player entry as it sits in a report file, before the loading loop
tags it with its session name. -/
structure RawPlayer where
  name : String
  fields : List (String × Val)
deriving DecidableEq, Repr

/-- Parsed content of one report file: the list under the "players" key
(report.get("players", []), dashboard.py line 55). -/
structure Report where
  players : List RawPlayer
deriving DecidableEq, Repr

/-- Content of one report file as seen by the loading loop: either it reads
and parses (json.load succeeds), or it is malformed/unreadable and raises,
carrying the exception text. -/
inductive FileContent where
  | valid (rep : Report)
  | malformed (msg : String)
deriving DecidableEq, Repr

/-- One discovered report file: the session name (parent directory name)
and its content. -/
structure SessionFile where
  name : String
  content : FileContent
deriving DecidableEq, Repr

/-- Stamp a raw player entry with its session name
(player["report_name"] = report_name, dashboard.py line 58). -/
def tagPlayer (session : String) (p : RawPlayer) : PRecord :=
  { name := p.name, report_name := session, fields := p.fields }

/-- Body of the loading loop for one selected file (dashboard.py lines
52-61): on success, the players of the report minus the reserved "Total"
row, each tagged with the session name, and no warning; on a malformed or
unreadable file, no players and one warning.  The try/except means the
function is total: a parse failure never escapes the loop body. -/
def loadSession (session : String) (content : FileContent) :
    List PRecord × List String :=
  match content with
  | .valid rep =>
      ((rep.players.filter (fun p => p.name ≠ "Total")).map (tagPlayer session), [])
  | .malformed msg =>
      ([], ["Could not load " ++ session ++ ": " ++ msg])

/-- The loading loop over all discovered files (dashboard.py lines 49-61):
files whose session name is selected contribute their players and warnings
in file order; the others are skipped.  The first component is the
all_players list. -/
def loadAll (selected : List String) : List SessionFile → List PRecord × List String
  | [] => ([], [])
  | f :: fs =>
      let rest := loadAll selected fs
      if f.name ∈ selected then
        let here := loadSession f.name f.content
        (here.1 ++ rest.1, here.2 ++ rest.2)
      else rest

/-- Statistic columns of the frame built from a list of records: every field
key of every record, first appearance first, without duplicates (pandas
column inference for pd.DataFrame on a list of dicts; the name and
report_name columns are kept apart in `PRecord`). -/
def columnsOf (rs : List PRecord) : List String :=
  ((rs.map (fun r => r.fields.map Prod.fst)).flatten).dedup

/-- Whether a column has numeric dtype: every value present in it is a
number (a column holding any string is object dtype and is excluded by
select_dtypes(include=[np.number]), dashboard.py line 79; a column of only
nulls is float64, hence numeric). -/
def isNumericCol (rs : List PRecord) (c : String) : Bool :=
  rs.all (fun r =>
    match getCell r c with
    | some v => v.isNum
    | none => true)

/-- Numeric reading of a cell the way a pandas sum consumes it: a number
counts itself, and a null contributes nothing (sum skips NaN). -/
def cellNum (r : PRecord) (c : String) : ℚ :=
  match getCell r c with
  | some (.num q) => q
  | _ => 0

/-- The rows of a given player name, in row order (the group of the
groupby("name") at dashboard.py line 82). -/
def groupOf (rs : List PRecord) (n : String) : List PRecord :=
  rs.filter (fun r => r.name = n)

/-- Sum of a column over the rows of one player name: the "sum" aggregation
of dashboard.py line 83 (null cells contribute 0). -/
def sumNamed (rs : List PRecord) (n c : String) : ℚ :=
  ((groupOf rs n).map (fun r => cellNum r c)).sum

/-- First non-null value of a column among the rows of one player name:
pandas groupby(...).first() (dashboard.py line 90) skips nulls, so this is
the first value present, not the value of the first row. -/
def firstVal (rs : List PRecord) (n c : String) : Option Val :=
  ((groupOf rs n).filterMap (fun r => getCell r c)).head?

/-- Lexicographic strict comparison of character lists by code point,
matching the comparison Python applies to str values. -/
def ltChars : List Char → List Char → Bool
  | [], [] => false
  | [], _ :: _ => true
  | _ :: _, [] => false
  | a :: as, b :: bs =>
      if a.toNat < b.toNat then true
      else if b.toNat < a.toNat then false
      else ltChars as bs

/-- Python string comparison s1 < s2: lexicographic by code point. -/
def strLt (a b : String) : Bool :=
  ltChars a.data b.data

/-- Non-strict companion of `strLt`. -/
def strLe (a b : String) : Bool :=
  !strLt b a

/-- The order `strLe` as a relation, for use with the sorting library. -/
def strLeRel (a b : String) : Prop :=
  strLe a b = true

instance : DecidableRel strLeRel := fun a b =>
  inferInstanceAs (Decidable (strLe a b = true))

/-- Python sorted(set(xs)) on strings: duplicates removed, then sorted
ascending by code point (dashboard.py line 84). -/
def sortDedupStr (l : List String) : List String :=
  List.insertionSort strLeRel l.dedup

/-- The aggregated report_name of one player: the contributing session
names, de-duplicated, sorted, joined with ", "
(", ".join(sorted(set(x))), dashboard.py line 84). -/
def joinedReports (rs : List PRecord) (n : String) : String :=
  String.intercalate ", " (sortDedupStr ((groupOf rs n).map (fun r => r.report_name)))

/-- Group keys of groupby("name"): the distinct player names sorted
ascending (groupby default sort=True, dashboard.py line 82). -/
def namesOf (rs : List PRecord) : List String :=
  sortDedupStr (rs.map (fun r => r.name))

/-- Aggregated value of one statistic column for one player name
(dashboard.py lines 82-93): a numeric column is summed over the group; a
non-numeric column takes the first non-null value of the group (merged back from
the first_occurrence frame, lines 88-91), staying absent when the group has
no value at all. -/
def aggVal (rs : List PRecord) (n c : String) : Option Val :=
  if isNumericCol rs c then some (Val.num (sumNamed rs n c))
  else firstVal rs n c

/-- The aggregated row of one player name: every statistic column carries
its aggregated value, and report_name becomes the joined session list. -/
def aggRow (rs : List PRecord) (n : String) : PRecord :=
  { name := n
    report_name := joinedReports rs n
    fields :=
      (columnsOf rs).filterMap (fun c => (aggVal rs n c).map (fun v => (c, v))) }

/-- The aggregated working table df (dashboard.py lines 79-93): one row per
distinct player name, in ascending name order. -/
def aggregate (rs : List PRecord) : List PRecord :=
  (namesOf rs).map (aggRow rs)

/-- The three selection modes offered by the radio widget
(dashboard.py lines 25-30). -/
inductive Mode where
  | all
  | single
  | multiple
deriving DecidableEq, Repr

/-- The working table df (dashboard.py lines 66-93): Single Report mode
keeps the concatenated list as-is (df = df_all.copy(), line 71); All
Reports and Multiple Reports aggregate it. -/
def workingTable (mode : Mode) (rs : List PRecord) : List PRecord :=
  match mode with
  | .single => rs
  | _ => aggregate rs

/-- The two conditions that stop the page render (st.stop() at dashboard.py
lines 44, 70 and 76): an empty multi-selection, and a working set with no
player records.  Parse failures are not here: they only warn. -/
inductive PageError where
  | emptySelection
  | noData
deriving DecidableEq, Repr

/-- What a completed page render hands to the view layer: the working table
and the non-fatal load warnings collected on the way. -/
structure PageOutput where
  table : List PRecord
  warnings : List String
deriving DecidableEq, Repr

/-- The page pipeline up to the working table (dashboard.py lines 33-93), as
a function of the selection mode, the selected session names and the
discovered files: Multiple Reports with nothing selected stops first
(lines 42-44); then the selected files are loaded; an empty all_players
list stops (lines 68-70 and 74-76); otherwise the working table is built
and the render continues. -/
def renderPage (mode : Mode) (selected : List String) (files : List SessionFile) :
    Except PageError PageOutput :=
  if mode = Mode.multiple ∧ selected = [] then Except.error PageError.emptySelection
  else
    let loaded := loadAll selected files
    if loaded.1 = [] then Except.error PageError.noData
    else Except.ok { table := workingTable mode loaded.1, warnings := loaded.2 }

/-- Rows surviving the selection and filter of the ranking views when the
view does not crash (df[["name", column]].query(column + " > 0"),
dashboard.py lines 100-101 and 114-115): the (name, value) pairs of the
rows whose cell in the column is a strictly positive number.  A null cell
fails the comparison and is dropped, exactly as NaN > 0 is false in pandas.
The two crash paths of the source views — KeyError when the hard-coded
column is absent from the frame, TypeError when the column has object
dtype — are not in this function; they are modelled by viewCheck below,
and the claims about view output go through it. -/
def posPart (rs : List PRecord) (c : String) : List (String × ℚ) :=
  rs.filterMap (fun r =>
    match getCell r c with
    | some (.num q) => if 0 < q then some (r.name, q) else none
    | _ => none)

/-- Contract of pandas sort_values(by=column, ascending=False) with the
default kind=quicksort (dashboard.py lines 102, 116): some permutation of
the rows that is descending in the value.  The relative order of rows with
equal values is left unspecified, because the default quicksort is
documented unstable; any descending permutation satisfies the contract. -/
def SortValuesDescSpec (l out : List (String × ℚ)) : Prop :=
  out.Perm l ∧ out.Sorted (fun a b => b.2 ≤ a.2)

/-- One admissible realization of SortValuesDescSpec, used for concrete
evaluation: pandas nargsort runs reverse, kernel sort ascending, reverse,
here with a stable kernel (insertion sort).  This matches what numpy
produces below its small-array insertion-sort cutoff, but the program does
not guarantee this tie order in general; no theorem relies on the tie
order of this function as program semantics. -/
def sortValuesDesc (l : List (String × ℚ)) : List (String × ℚ) :=
  (List.insertionSort (fun a b => a.2 ≤ b.2) l.reverse).reverse

/-- The shared pipeline of top_table (dashboard.py lines 99-104) and
bar_chart (lines 113-118) under the stable-kernel realization: select name
and column, keep strictly positive values, sort descending, take the first
n rows.  The set of outputs the program admits is TopTableOutput below. -/
def top_table (rs : List PRecord) (c : String) (n : ℕ) : List (String × ℚ) :=
  (sortValuesDesc (posPart rs c)).take n

/-- The two exceptions a view call can raise (dashboard.py lines 100, 114):
KeyError from df[["name", column]] when the column is not in the frame, and
TypeError from the query comparison when the column has object dtype. -/
inductive ViewError where
  | keyError (c : String)
  | typeError (c : String)
deriving DecidableEq, Repr

/-- Whether a view call on a column crashes: KeyError if the column is
absent from the frame built over the given rows; otherwise TypeError if the
column holds any string (object dtype, whose comparison with 0 raises);
otherwise the view renders. -/
def viewCheck (rs : List PRecord) (c : String) : Option ViewError :=
  if c ∈ columnsOf rs then
    if isNumericCol rs c then none else some (ViewError.typeError c)
  else some (ViewError.keyError c)

/-- The outputs the program admits for the top-n view of a column: the view
must not crash, and the output is the first n rows of some descending
permutation of the positive-filtered selection — tie order unspecified. -/
def TopTableOutput (rs : List PRecord) (c : String) (n : ℕ)
    (out : List (String × ℚ)) : Prop :=
  viewCheck rs c = none ∧
  ∃ s, SortValuesDescSpec (posPart rs c) s ∧ out = s.take n

/-- The hard-coded columns the page views request, in page order
(dashboard.py lines 129-244). -/
def viewColumns : List String :=
  ["dps", "hps",
   "haste_potion", "destruction_potion", "spell_elixir_of_demonslaying", "mana_potion",
   "super_sapper_charge", "goblin_sapper_charge",
   "spell_braided_eternium_chain", "spell_chain_of_the_twilight_owl", "spell_eye_of_the_night",
   "spell_sunder_armor", "spell_demoralizing_shout", "spell_thunder_clap", "spell_pummel",
   "spell_faerie_fire", "spell_insect_swarm", "spell_innervate",
   "spell_curse_of_the_elements", "spell_curse_of_recklessness", "spell_curse_of_tongues",
   "spell_curse_of_agony", "spell_curse_of_doom", "spell_shadow_vulnerability",
   "spell_bloodlust", "spell_mana_tide_totem", "spell_natures_swiftness", "spell_purge",
   "spell_fortitude", "spell_intellect", "spell_mark_of_the_wild",
   "spell_scroll_of_strength", "spell_scroll_of_agility", "spell_drums_of_battle",
   "spell_demonicdark_rune", "spell_resurrects"]

/-- The first view crash, if any, when the views run in page order over the
working table: the first uncaught exception ends the script run. -/
def firstViewError (rs : List PRecord) : List String → Option ViewError
  | [] => none
  | c :: cs =>
    match viewCheck rs c with
    | some e => some e
    | none => firstViewError rs cs

/-- Every way the page render can halt: the two st.stop() conditions of
lines 44, 70 and 76, and an uncaught view exception. -/
inductive PageHalt where
  | emptySelection
  | noData
  | viewCrash (e : ViewError)
deriving DecidableEq, Repr

/-- The page render including the view sequence: the pipeline up to the
working table (renderPage), then the hard-coded views in page order, the
first crashing view halting the render. -/
def renderFullPage (mode : Mode) (selected : List String)
    (files : List SessionFile) : Except PageHalt PageOutput :=
  match renderPage mode selected files with
  | Except.error PageError.emptySelection => Except.error PageHalt.emptySelection
  | Except.error PageError.noData => Except.error PageHalt.noData
  | Except.ok out =>
    match firstViewError out.table viewColumns with
    | some e => Except.error (PageHalt.viewCrash e)
    | none => Except.ok out

/-- Modelled from the spec: the per-player mean of the DPS column that the
"average DPS across sessions" view of the overall-statistics section
computes.  That view is described in spec sections 3 and 4.4 but its code
is not under src/ (src/dashboard.py has no mean anywhere); following the
words of the spec it is the arithmetic mean of the DPS value of the player across
every raw session record bearing that name. -/
def meanDps (raw : List PRecord) (n : String) : ℚ :=
  sumNamed raw n "dps" / ((groupOf raw n).length : ℚ)

/-- Modelled from the spec: the average-DPS view pairs every player name of
the raw concatenation with that mean and sorts descending by it. -/
def avgDpsView (raw : List PRecord) : List (String × ℚ) :=
  sortValuesDesc ((namesOf raw).map (fun n => (n, meanDps raw n)))

/-- Modelled from the spec: the average-DPS view as the page computes it.
Spec section 4.4: it reads the full historical concatenation (every
discovered session loaded, independent of the current selection), so the
current selection is taken as an argument and deliberately ignored. -/
def avgDpsOfPage (files : List SessionFile) (_selected : List String) :
    List (String × ℚ) :=
  avgDpsView (loadAll (files.map (fun f => f.name)) files).1

/-! Concrete data used to exercise the model on the examples that appear in
the specification, and in witnesses. -/

/-- One ranking-example record (spec section 8): a single value column. -/
def exR (nm : String) (q : ℚ) : PRecord :=
  { name := nm, report_name := "s1", fields := [("value", Val.num q)] }

/-- The ranking example of the spec: X 0, Y 5, Z 5, W -1. -/
def exRanking : List PRecord :=
  [exR "X" 0, exR "Y" 5, exR "Z" 5, exR "W" (-1)]

/-- First record of player A: no class field. -/
def rA1 : PRecord := { name := "A", report_name := "s1", fields := [("dps", Val.num 5)] }

/-- Player B carries a class value, making the class column non-numeric. -/
def rB1 : PRecord :=
  { name := "B", report_name := "s1", fields := [("dps", Val.num 2), ("class", Val.str "Mage")] }

/-- Second record of player A: now has a class value. -/
def rA2 : PRecord :=
  { name := "A", report_name := "s2", fields := [("dps", Val.num 3), ("class", Val.str "Druid")] }

/-- Two sessions in which player A has a class value only in the second. -/
def rsFirst : List PRecord := [rA1, rB1, rA2]

/-- Records of one player P drawn from sessions b, a, a (spec section 8). -/
def rsJoin : List PRecord :=
  [{ name := "P", report_name := "b", fields := [] },
   { name := "P", report_name := "a", fields := [] },
   { name := "P", report_name := "a", fields := [] }]

/-- One well-formed report file whose players are out of alphabetical order. -/
def files5 : List SessionFile :=
  [{ name := "s1",
     content := FileContent.valid
       { players := [{ name := "B", fields := [("dps", Val.num 7)] },
                     { name := "A", fields := [("dps", Val.num 5)] }] } }]

/-- A session whose two players carry different counters. -/
def rA7 : PRecord := { name := "A", report_name := "s1", fields := [("dps", Val.num 5)] }

/-- The second player has no dps key at all. -/
def rB7 : PRecord := { name := "B", report_name := "s1", fields := [("hps", Val.num 3)] }

/-- Single-session working set in which the dps column is partially missing. -/
def rs7 : List PRecord := [rA7, rB7]

/-- One valid session whose sole player has dps only: the page loads
records fine and then crashes on the hard-coded hps view. -/
def files9 : List SessionFile :=
  [{ name := "s1",
     content := FileContent.valid
       { players := [{ name := "A", fields := [("dps", Val.num 5)] }] } }]

/-- One report file with a single player, for the average-DPS witness. -/
def files2 : List SessionFile :=
  [{ name := "s1",
     content := FileContent.valid
       { players := [{ name := "A", fields := [("dps", Val.num 7)] }] } }]

/-- Session A of the associativity witness. -/
def aggA : List PRecord := [{ name := "A", report_name := "s1", fields := [("dps", Val.num 1)] }]

/-- Session B of the associativity witness. -/
def aggB : List PRecord := [{ name := "A", report_name := "s2", fields := [("dps", Val.num 2)] }]

/-- Session C of the associativity witness. -/
def aggC : List PRecord := [{ name := "B", report_name := "s3", fields := [("dps", Val.num 4)] }]

/-! Facts about the code-point order on strings. -/

theorem ltChars_asymm : ∀ (l1 l2 : List Char),
    ltChars l1 l2 = true → ltChars l2 l1 = false
  | [], [] => fun h => by simp [ltChars] at h
  | [], _ :: _ => fun _ => rfl
  | _ :: _, [] => fun h => by simp [ltChars] at h
  | a :: as, b :: bs => fun h => by
    by_cases hab : a.toNat < b.toNat
    · have hba : ¬ b.toNat < a.toNat := by omega
      simp [ltChars, hab, hba]
    · by_cases hba : b.toNat < a.toNat
      · simp [ltChars, hab, hba] at h
      · have h2 : ltChars as bs = true := by simpa [ltChars, hab, hba] using h
        simp [ltChars, hab, hba, ltChars_asymm as bs h2]

theorem ltChars_eq_of_not : ∀ (l1 l2 : List Char),
    ltChars l1 l2 = false → ltChars l2 l1 = false → l1 = l2
  | [], [] => fun _ _ => rfl
  | [], _ :: _ => fun h _ => by simp [ltChars] at h
  | _ :: _, [] => fun _ h => by simp [ltChars] at h
  | a :: as, b :: bs => fun h1 h2 => by
    by_cases hab : a.toNat < b.toNat
    · simp [ltChars, hab] at h1
    · by_cases hba : b.toNat < a.toNat
      · simp [ltChars, hba] at h2
      · have hv : a.toNat = b.toNat := by omega
        have hc : a = b := Char.ext (UInt32.ext hv)
        have hrest : as = bs :=
          ltChars_eq_of_not as bs (by simpa [ltChars, hab, hba] using h1)
            (by simpa [ltChars, hab, hba] using h2)
        rw [hc, hrest]

theorem ltChars_trans : ∀ (l1 l2 l3 : List Char),
    ltChars l1 l2 = true → ltChars l2 l3 = true → ltChars l1 l3 = true
  | [], [], _ => fun h _ => by simp [ltChars] at h
  | [], _ :: _, [] => fun _ h => by simp [ltChars] at h
  | [], _ :: _, _ :: _ => fun _ _ => rfl
  | _ :: _, [], _ => fun h _ => by simp [ltChars] at h
  | _ :: _, _ :: _, [] => fun _ h => by simp [ltChars] at h
  | a :: as, b :: bs, c :: cs => fun h1 h2 => by
    have hab2 : ¬ b.toNat < a.toNat → a.toNat < b.toNat ∨ (a.toNat = b.toNat ∧ ltChars as bs = true) := by
      intro hba
      by_cases hab : a.toNat < b.toNat
      · exact Or.inl hab
      · exact Or.inr ⟨by omega, by simpa [ltChars, hab, hba] using h1⟩
    have hba : ¬ b.toNat < a.toNat := by
      intro hba
      have hab : ¬ a.toNat < b.toNat := by omega
      simp [ltChars, hab, hba] at h1
    have hcb : ¬ c.toNat < b.toNat := by
      intro hcb
      have hbc : ¬ b.toNat < c.toNat := by omega
      simp [ltChars, hbc, hcb] at h2
    rcases hab2 hba with hab | ⟨hvab, hrab⟩
    · by_cases hbc : b.toNat < c.toNat
      · have hac : a.toNat < c.toNat := by omega
        simp [ltChars, hac]
      · have hac : a.toNat < c.toNat := by omega
        simp [ltChars, hac]
    · by_cases hbc : b.toNat < c.toNat
      · have hac : a.toNat < c.toNat := by omega
        simp [ltChars, hac]
      · have hvbc : b.toNat = c.toNat := by omega
        have hrbc : ltChars bs cs = true := by simpa [ltChars, hbc, hcb] using h2
        have hac1 : ¬ a.toNat < c.toNat := by omega
        have hac2 : ¬ c.toNat < a.toNat := by omega
        simp [ltChars, hac1, hac2, ltChars_trans as bs cs hrab hrbc]

theorem string_eq_of_data_eq (a b : String) (h : a.data = b.data) : a = b := by
  cases a
  cases b
  exact congrArg String.mk h

instance : IsTotal String strLeRel := by
  refine ⟨fun a b => ?_⟩
  unfold strLeRel strLe strLt
  rcases hab : ltChars a.data b.data with _ | _
  · right
    simp [hab]
  · left
    simp [ltChars_asymm _ _ hab]

instance : IsTrans String strLeRel := by
  refine ⟨fun a b c h1 h2 => ?_⟩
  unfold strLeRel strLe strLt at h1 h2 ⊢
  rw [Bool.not_eq_true'] at h1 h2 ⊢
  rcases hca : ltChars c.data a.data with _ | _
  · rfl
  · exfalso
    rcases hab : ltChars a.data b.data with _ | _
    · have hdeq := ltChars_eq_of_not a.data b.data hab h1
      rw [hdeq] at hca
      rw [hca] at h2
      simp at h2
    · have hcb := ltChars_trans c.data a.data b.data hca hab
      rw [hcb] at h2
      simp at h2

instance : IsAntisymm String strLeRel := by
  refine ⟨fun a b h1 h2 => ?_⟩
  unfold strLeRel strLe strLt at h1 h2
  simp only [Bool.not_eq_true', Bool.not_eq_false] at h1 h2
  exact string_eq_of_data_eq a b (ltChars_eq_of_not a.data b.data h2 h1)

theorem strLt_of_strLeRel_of_ne (a b : String) (hle : strLeRel a b) (hne : a ≠ b) :
    strLt a b = true := by
  have hba : ltChars b.data a.data = false := by
    unfold strLeRel strLe strLt at hle
    rwa [Bool.not_eq_true'] at hle
  show ltChars a.data b.data = true
  rcases hab : ltChars a.data b.data with _ | _
  · exact absurd (string_eq_of_data_eq a b (ltChars_eq_of_not a.data b.data hab hba)) hne
  · rfl

/-! Facts about the descending value sort of the ranking views. -/

instance : IsTotal (String × ℚ) (fun a b => a.2 ≤ b.2) :=
  ⟨fun a b => le_total a.2 b.2⟩

instance : IsTrans (String × ℚ) (fun a b => a.2 ≤ b.2) :=
  ⟨fun _ _ _ h1 h2 => le_trans h1 h2⟩

theorem sortValuesDesc_perm (l : List (String × ℚ)) : (sortValuesDesc l).Perm l := by
  unfold sortValuesDesc
  exact ((List.reverse_perm _).trans
    (List.perm_insertionSort _ l.reverse)).trans (List.reverse_perm l)

theorem sortValuesDesc_sorted (l : List (String × ℚ)) :
    (sortValuesDesc l).Sorted (fun a b => b.2 ≤ a.2) := by
  unfold sortValuesDesc
  have h := List.sorted_insertionSort (fun a b : String × ℚ => a.2 ≤ b.2) l.reverse
  unfold List.Sorted at h ⊢
  rw [List.pairwise_reverse]
  exact h

theorem filter_orderedInsert_val (v : ℚ) (a : String × ℚ) :
    ∀ s : List (String × ℚ),
      (List.orderedInsert (fun x y => x.2 ≤ y.2) a s).filter (fun x => decide (x.2 = v)) =
        if a.2 = v then a :: s.filter (fun x => decide (x.2 = v))
        else s.filter (fun x => decide (x.2 = v))
  | [] => by
    by_cases hv : a.2 = v <;> simp [List.orderedInsert, hv]
  | b :: s => by
    by_cases hr : a.2 ≤ b.2
    · rw [List.orderedInsert_of_le (fun (x y : String × ℚ) => x.2 ≤ y.2) s hr,
        List.filter_cons]
      by_cases hv : a.2 = v <;> simp [hv]
    · have step : List.orderedInsert (fun (x y : String × ℚ) => x.2 ≤ y.2) a (b :: s) =
          b :: List.orderedInsert (fun (x y : String × ℚ) => x.2 ≤ y.2) a s := by
        simp [List.orderedInsert, hr]
      rw [step, List.filter_cons, filter_orderedInsert_val v a s]
      by_cases hav : a.2 = v
      · have hbv : ¬ b.2 = v := by
          intro hb
          exact hr (le_of_eq (hav.trans hb.symm))
        simp [hav, hbv, List.filter_cons]
      · by_cases hbv : b.2 = v <;> simp [hav, hbv, List.filter_cons]

theorem filter_insertionSort_val (v : ℚ) :
    ∀ l : List (String × ℚ),
      (List.insertionSort (fun a b => a.2 ≤ b.2) l).filter (fun x => decide (x.2 = v)) =
        l.filter (fun x => decide (x.2 = v))
  | [] => rfl
  | a :: l => by
    rw [List.insertionSort, filter_orderedInsert_val v a]
    by_cases hv : a.2 = v <;>
      simp [List.filter, hv, filter_insertionSort_val v l]

theorem sortValuesDesc_stable (l : List (String × ℚ)) (v : ℚ) :
    (sortValuesDesc l).filter (fun x => decide (x.2 = v)) =
      l.filter (fun x => decide (x.2 = v)) := by
  unfold sortValuesDesc
  rw [List.filter_reverse, filter_insertionSort_val, List.filter_reverse,
    List.reverse_reverse]

/-! Facts about the data-frame cells and the aggregation. -/

theorem lookupField_keyed (h : String → Option Val) :
    ∀ (ks : List String) (c : String),
      lookupField (ks.filterMap (fun k => (h k).map (fun v => (k, v)))) c =
        if c ∈ ks then h c else none
  | [], c => by simp [lookupField]
  | k :: ks, c => by
    rcases hk : h k with _ | v
    · rw [List.filterMap_cons_none (by simp [hk]), lookupField_keyed h ks c]
      by_cases hck : c ∈ ks
      · simp [hck]
      · by_cases hical : c = k
        · subst hical
          simp [hck, hk]
        · simp [hck, hical]
    · rw [List.filterMap_cons_some (by simp [hk] : _ = some (k, v))]
      unfold lookupField
      by_cases hkc : k = c
      · subst hkc
        simp [hk]
      · rw [if_neg hkc, lookupField_keyed h ks c]
        have hck : ¬ c = k := fun h2 => hkc h2.symm
        by_cases hmem : c ∈ ks
        · simp [hmem]
        · simp [hmem, hck]

theorem getCell_aggRow (rs : List PRecord) (n c : String) :
    getCell (aggRow rs n) c = if c ∈ columnsOf rs then aggVal rs n c else none := by
  unfold getCell aggRow
  exact lookupField_keyed (aggVal rs n) (columnsOf rs) c

theorem lookupField_eq_none (c : String) :
    ∀ kvs : List (String × Val), c ∉ kvs.map Prod.fst → lookupField kvs c = none
  | [] => fun _ => rfl
  | (k, v) :: kvs => fun hc => by
    have hk : ¬ k = c := by
      intro h
      exact hc (by simp [h])
    have hrest : c ∉ kvs.map Prod.fst := by
      intro h
      exact hc (by simp [h])
    simp [lookupField, hk, lookupField_eq_none c kvs hrest]

theorem getCell_eq_none_of_not_col (rs : List PRecord) (c : String) (r : PRecord)
    (hc : c ∉ columnsOf rs) (hr : r ∈ rs) : getCell r c = none := by
  apply lookupField_eq_none
  intro hmem
  apply hc
  unfold columnsOf
  rw [List.mem_dedup]
  exact List.mem_flatten.mpr ⟨r.fields.map Prod.fst, List.mem_map_of_mem _ hr, hmem⟩

theorem groupOf_subset (rs : List PRecord) (n : String) (r : PRecord)
    (hr : r ∈ groupOf rs n) : r ∈ rs :=
  (List.mem_filter.mp hr).1

theorem sumNamed_eq_zero_of_not_col (rs : List PRecord) (n c : String)
    (hc : c ∉ columnsOf rs) : sumNamed rs n c = 0 := by
  unfold sumNamed
  apply List.sum_eq_zero
  intro x hx
  rcases List.mem_map.mp hx with ⟨r, hr, hxe⟩
  rw [← hxe]
  simp [cellNum, getCell_eq_none_of_not_col rs c r hc (groupOf_subset rs n r hr)]

theorem cellNum_aggRow (rs : List PRecord) (n c : String)
    (hnum : isNumericCol rs c = true) :
    cellNum (aggRow rs n) c = sumNamed rs n c := by
  unfold cellNum
  rw [getCell_aggRow]
  by_cases hc : c ∈ columnsOf rs
  · simp [hc, aggVal, hnum]
  · simp [hc, sumNamed_eq_zero_of_not_col rs n c hc]

theorem namesOf_nodup (rs : List PRecord) : (namesOf rs).Nodup :=
  (List.perm_insertionSort strLeRel _).nodup_iff.mpr (List.nodup_dedup _)

theorem mem_namesOf (rs : List PRecord) (n : String) :
    n ∈ namesOf rs ↔ n ∈ rs.map (fun r => r.name) := by
  unfold namesOf sortDedupStr
  rw [(List.perm_insertionSort strLeRel _).mem_iff, List.mem_dedup]

theorem filter_eq_of_nodup : ∀ (l : List String), l.Nodup → ∀ n : String,
    l.filter (fun m => decide (m = n)) = if n ∈ l then [n] else []
  | [], _, n => by simp
  | k :: l, hnd, n => by
    rw [List.filter_cons]
    have hl := filter_eq_of_nodup l (List.nodup_cons.mp hnd).2 n
    by_cases hk : k = n
    · subst hk
      have hnl : k ∉ l := (List.nodup_cons.mp hnd).1
      simp [hl, hnl]
    · by_cases hn : n ∈ l
      · have hmem : n ∈ k :: l := List.mem_cons_of_mem k hn
        simp [hk, hl, hn, hmem]
      · have hmem : n ∉ k :: l := by
          intro hmem
          rcases List.mem_cons.mp hmem with h1 | h2
          · exact hk h1.symm
          · exact hn h2
        simp [hk, hl, hn, hmem]

theorem groupOf_aggregate (rs : List PRecord) (n : String) :
    groupOf (aggregate rs) n = if n ∈ namesOf rs then [aggRow rs n] else [] := by
  unfold groupOf aggregate
  rw [List.filter_map]
  have hpred : ((fun r : PRecord => decide (r.name = n)) ∘ aggRow rs) =
      fun m => decide (m = n) := rfl
  rw [hpred, filter_eq_of_nodup _ (namesOf_nodup rs) n]
  by_cases hn : n ∈ namesOf rs <;> simp [hn]

theorem groupOf_eq_nil_of_not_name (rs : List PRecord) (n : String)
    (hn : n ∉ rs.map (fun r => r.name)) : groupOf rs n = [] := by
  unfold groupOf
  rw [List.filter_eq_nil_iff]
  intro r hr
  simp only [decide_eq_true_eq]
  intro he
  exact hn (he ▸ List.mem_map_of_mem (fun r => r.name) hr)

theorem sumNamed_aggregate (rs : List PRecord) (n c : String)
    (hnum : isNumericCol rs c = true) :
    sumNamed (aggregate rs) n c = sumNamed rs n c := by
  rw [show sumNamed (aggregate rs) n c =
    ((groupOf (aggregate rs) n).map (fun r => cellNum r c)).sum from rfl]
  rw [groupOf_aggregate]
  by_cases hn : n ∈ namesOf rs
  · simp [hn, cellNum_aggRow rs n c hnum]
  · have hg : groupOf rs n = [] :=
      groupOf_eq_nil_of_not_name rs n (fun h => hn ((mem_namesOf rs n).mpr h))
    simp [hn, sumNamed, hg]

theorem isNumericCol_append (xs ys : List PRecord) (c : String) :
    isNumericCol (xs ++ ys) c = (isNumericCol xs c && isNumericCol ys c) :=
  List.all_append

theorem sumNamed_append (xs ys : List PRecord) (n c : String) :
    sumNamed (xs ++ ys) n c = sumNamed xs n c + sumNamed ys n c := by
  unfold sumNamed groupOf
  rw [List.filter_append, List.map_append, List.sum_append]

theorem sumNamed_perm (rs rs2 : List PRecord) (n c : String) (hp : rs.Perm rs2) :
    sumNamed rs n c = sumNamed rs2 n c :=
  ((hp.filter _).map _).sum_eq

theorem isNumericCol_perm (rs rs2 : List PRecord) (c : String) (hp : rs.Perm rs2) :
    isNumericCol rs c = isNumericCol rs2 c := by
  unfold isNumericCol
  rw [Bool.eq_iff_iff]
  simp only [List.all_eq_true]
  exact ⟨fun h x hx => h x (hp.symm.subset hx), fun h x hx => h x (hp.subset hx)⟩

theorem namesOf_perm (rs rs2 : List PRecord) (hp : rs.Perm rs2) :
    namesOf rs = namesOf rs2 := by
  unfold namesOf sortDedupStr
  exact List.eq_of_perm_of_sorted
    ((List.perm_insertionSort strLeRel _).trans
      (((hp.map _).dedup).trans (List.perm_insertionSort strLeRel _).symm))
    (List.sorted_insertionSort strLeRel _)
    (List.sorted_insertionSort strLeRel _)

theorem isNumericCol_aggregate (rs : List PRecord) (c : String)
    (hnum : isNumericCol rs c = true) :
    isNumericCol (aggregate rs) c = true := by
  unfold isNumericCol
  rw [List.all_eq_true]
  intro r hr
  rcases List.mem_map.mp hr with ⟨n, _, hre⟩
  rw [← hre]
  by_cases hc : c ∈ columnsOf rs
  · simp [getCell_aggRow, hc, aggVal, hnum, Val.isNum]
  · simp [getCell_aggRow, hc]

theorem aggregate_map_name (rs : List PRecord) :
    (aggregate rs).map (fun r => r.name) = namesOf rs := by
  unfold aggregate
  rw [List.map_map]
  have hcomp : ((fun r : PRecord => r.name) ∘ aggRow rs) = id := rfl
  rw [hcomp, List.map_id]

theorem mem_aggregate_names (rs : List PRecord) (r2 : PRecord)
    (h : r2 ∈ aggregate rs) : ∃ r ∈ rs, r.name = r2.name := by
  rcases List.mem_map.mp h with ⟨n, hn, he⟩
  rcases List.mem_map.mp ((mem_namesOf rs n).mp hn) with ⟨r, hr, hne⟩
  refine ⟨r, hr, ?_⟩
  rw [← he]
  exact hne

theorem namesOf_sorted (rs : List PRecord) :
    (namesOf rs).Pairwise (fun a b => strLt a b = true) := by
  have hs : (namesOf rs).Pairwise strLeRel := List.sorted_insertionSort strLeRel _
  have hn : (namesOf rs).Nodup := namesOf_nodup rs
  exact (hs.and hn).imp (fun hab => strLt_of_strLeRel_of_ne _ _ hab.1 hab.2)

/-! Facts about the loading loop. -/

theorem loadAll_append (sels : List String) : ∀ (xs ys : List SessionFile),
    loadAll sels (xs ++ ys) =
      ((loadAll sels xs).1 ++ (loadAll sels ys).1,
       (loadAll sels xs).2 ++ (loadAll sels ys).2)
  | [], ys => by simp [loadAll]
  | f :: xs, ys => by
    simp only [List.cons_append, loadAll, List.append_eq]
    rw [loadAll_append sels xs ys]
    by_cases hf : f.name ∈ sels <;> simp [hf, List.append_assoc]

theorem loadAll_nil_selected : ∀ files : List SessionFile, loadAll [] files = ([], [])
  | [] => rfl
  | f :: fs => by simp [loadAll, loadAll_nil_selected fs]

theorem mem_loadSession_name_ne_total (s : String) (content : FileContent)
    (r : PRecord) (h : r ∈ (loadSession s content).1) : r.name ≠ "Total" := by
  cases content with
  | malformed m => exact absurd h (List.not_mem_nil r)
  | valid rep =>
    rcases List.mem_map.mp h with ⟨p, hp, he⟩
    have hname := (List.mem_filter.mp hp).2
    rw [← he]
    have hname2 : p.name ≠ "Total" := by simpa using hname
    exact hname2

theorem mem_loadAll_name_ne_total (sels : List String) :
    ∀ (files : List SessionFile) (r : PRecord),
      r ∈ (loadAll sels files).1 → r.name ≠ "Total"
  | [], r => fun h => absurd h (List.not_mem_nil r)
  | f :: fs, r => fun h => by
    unfold loadAll at h
    by_cases hf : f.name ∈ sels
    · simp only [hf, if_pos] at h
      rcases List.mem_append.mp h with h1 | h2
      · exact mem_loadSession_name_ne_total f.name f.content r h1
      · exact mem_loadAll_name_ne_total sels fs r h2
    · simp only [hf, if_neg, if_false] at h
      exact mem_loadAll_name_ne_total sels fs r h

/-! Facts about the ranking pipeline. -/

theorem mem_posPart (rs : List PRecord) (c : String) (p : String × ℚ)
    (h : p ∈ posPart rs c) :
    0 < p.2 ∧ ∃ r ∈ rs, r.name = p.1 ∧ getCell r c = some (Val.num p.2) := by
  obtain ⟨pn, pv⟩ := p
  unfold posPart at h
  rcases List.mem_filterMap.mp h with ⟨r, hr, he⟩
  rcases hcell : getCell r c with _ | v
  · rw [hcell] at he
    simp at he
  · rw [hcell] at he
    cases v with
    | str s => simp at he
    | num q =>
      by_cases hq : 0 < q
      · simp [hq] at he
        obtain ⟨h1, h2⟩ := he
        subst h1
        subst h2
        exact ⟨hq, r, hr, rfl, hcell⟩
      · simp [hq] at he

theorem mem_posPart_of_pos (rs : List PRecord) (c : String) (r : PRecord)
    (hr : r ∈ rs) (q : ℚ) (hcell : getCell r c = some (Val.num q)) (hq : 0 < q) :
    (r.name, q) ∈ posPart rs c := by
  unfold posPart
  refine List.mem_filterMap.mpr ⟨r, hr, ?_⟩
  rw [hcell]
  simp [hq]

theorem mem_top_table (rs : List PRecord) (c : String) (n : ℕ) (p : String × ℚ)
    (h : p ∈ top_table rs c n) : p ∈ posPart rs c := by
  unfold top_table at h
  exact (sortValuesDesc_perm (posPart rs c)).subset ((List.take_sublist n _).subset h)

/-! The claims. -/

/-- C1 as stated is false: the claim asserts that ties always break by
input order (a stable sort), but the code calls sort_values with no kind,
so pandas uses its default quicksort, which is documented unstable — the
code does not pin the tie order (for tied runs at or above the small-array
insertion-sort cutoff of numpy, about 16 elements, ties really do come out
reordered).  On the own example of the spec, the contract the code
guarantees admits the output Z then Y, with the tie NOT in input order,
beside the claimed Y then Z. -/
theorem claim1_counterexample :
    TopTableOutput exRanking "value" 2 [("Y", 5), ("Z", 5)]
  ∧ TopTableOutput exRanking "value" 2 [("Z", 5), ("Y", 5)]
  ∧ ([("Z", 5), ("Y", 5)] : List (String × ℚ)) ≠ [("Y", 5), ("Z", 5)] := by
  refine ⟨⟨by decide, [("Y", 5), ("Z", 5)], ⟨by decide, by decide⟩, rfl⟩,
    ⟨by decide, [("Z", 5), ("Y", 5)], ⟨by decide, by decide⟩, rfl⟩, by decide⟩

/-- C1 amended: for every working table, column and count, every output the
top-N view can produce (a view that renders: column present in the frame
and numeric) selects the name and value columns, keeps exactly the rows
whose value is a strictly positive number, is sorted descending by the
value, and is the first n rows of some descending permutation of the
filtered rows — but the relative order of rows with equal values is
unspecified (default quicksort, documented unstable).  The stable-kernel
realization is one admissible output and on the spec example it yields
Y then Z, matching behavior observed below the numpy cutoff. -/
theorem claim1_ranking_view (rs : List PRecord) (c : String) (n : ℕ)
    (out : List (String × ℚ)) (h : TopTableOutput rs c n out) :
    out.length ≤ n
  ∧ out.Sorted (fun a b => b.2 ≤ a.2)
  ∧ (∀ p ∈ out, 0 < p.2 ∧ ∃ r ∈ rs, r.name = p.1 ∧ getCell r c = some (Val.num p.2))
  ∧ (∀ r ∈ rs, ∀ q : ℚ, getCell r c = some (Val.num q) → 0 < q →
      (r.name, q) ∈ posPart rs c)
  ∧ c ∈ columnsOf rs
  ∧ isNumericCol rs c = true
  ∧ TopTableOutput rs c n (top_table rs c n)
  ∧ top_table exRanking "value" 2 = [("Y", 5), ("Z", 5)] := by
  obtain ⟨hvc, s, ⟨hperm, hsort⟩, hout⟩ := h
  have hcol : c ∈ columnsOf rs ∧ isNumericCol rs c = true := by
    unfold viewCheck at hvc
    by_cases hc : c ∈ columnsOf rs
    · rw [if_pos hc] at hvc
      by_cases hn : isNumericCol rs c
      · exact ⟨hc, hn⟩
      · rw [if_neg hn] at hvc
        simp at hvc
    · rw [if_neg hc] at hvc
      simp at hvc
  subst hout
  refine ⟨List.length_take_le n s, hsort.sublist (List.take_sublist n s), ?_,
    fun r hr q hcell hq => mem_posPart_of_pos rs c r hr q hcell hq,
    hcol.1, hcol.2,
    ⟨hvc, sortValuesDesc (posPart rs c),
      ⟨sortValuesDesc_perm _, sortValuesDesc_sorted _⟩, rfl⟩,
    by decide⟩
  intro p hp
  exact mem_posPart rs c p (hperm.subset ((List.take_sublist n s).subset hp))

/-- Witness for C1 amended: the stable-kernel output of the spec example is
an admissible output, and the theorem applies to it. -/
theorem claim1_ranking_view_witness :
    TopTableOutput exRanking "value" 2 (top_table exRanking "value" 2)
  ∧ (top_table exRanking "value" 2).Sorted (fun a b => b.2 ≤ a.2) :=
  have hself : TopTableOutput exRanking "value" 2 (top_table exRanking "value" 2) :=
    ⟨by decide, sortValuesDesc (posPart exRanking "value"),
      ⟨sortValuesDesc_perm _, sortValuesDesc_sorted _⟩, rfl⟩
  ⟨hself, (claim1_ranking_view exRanking "value" 2 _ hself).2.1⟩

/-- C2 (the average-DPS view is modelled from the spec, its code being
outside src/): the view is the same for every session selection, pairs each
player of the full raw concatenation with the arithmetic mean of that
dps cells of that player over all raw records bearing the name, and is sorted
descending by that mean. -/
theorem claim2_avg_dps (files : List SessionFile) (sels sels2 : List String) :
    avgDpsOfPage files sels = avgDpsOfPage files sels2
  ∧ (∀ p ∈ avgDpsOfPage files sels,
      p.2 = ((groupOf (loadAll (files.map (fun f => f.name)) files).1 p.1).map
          (fun r => cellNum r "dps")).sum /
        ((groupOf (loadAll (files.map (fun f => f.name)) files).1 p.1).length : ℚ))
  ∧ (avgDpsOfPage files sels).Sorted (fun a b => b.2 ≤ a.2)
  ∧ (∀ n ∈ namesOf (loadAll (files.map (fun f => f.name)) files).1,
      (n, meanDps (loadAll (files.map (fun f => f.name)) files).1 n) ∈
        avgDpsOfPage files sels) := by
  refine ⟨rfl, ?_, sortValuesDesc_sorted _, ?_⟩
  · intro p hp
    have hp2 := (sortValuesDesc_perm _).subset hp
    rcases List.mem_map.mp hp2 with ⟨m, _, he⟩
    rw [← he]
    rfl
  · intro n hn
    exact (sortValuesDesc_perm _).mem_iff.mpr (List.mem_map_of_mem _ hn)

/-- Witness for C2 on a one-player file. -/
theorem claim2_avg_dps_witness :
    "A" ∈ namesOf (loadAll (files2.map (fun f => f.name)) files2).1
  ∧ ("A", meanDps (loadAll (files2.map (fun f => f.name)) files2).1 "A") ∈
      avgDpsOfPage files2 [] :=
  ⟨by decide, (claim2_avg_dps files2 [] ["s1"]).2.2.2 "A" (by decide)⟩

/-- C3: no record named Total survives loading, so no working-table row and
no top-N entry is ever named Total, in any mode and for any selection. -/
theorem claim3_total_excluded (mode : Mode) (sels : List String)
    (files : List SessionFile) :
    (∀ r ∈ (loadAll sels files).1, r.name ≠ "Total")
  ∧ (∀ r ∈ workingTable mode (loadAll sels files).1, r.name ≠ "Total")
  ∧ (∀ (c : String) (n : ℕ) (p : String × ℚ),
      p ∈ top_table (workingTable mode (loadAll sels files).1) c n →
        p.1 ≠ "Total") := by
  have h1 : ∀ r ∈ (loadAll sels files).1, r.name ≠ "Total" :=
    fun r hr => mem_loadAll_name_ne_total sels files r hr
  have h2 : ∀ r ∈ workingTable mode (loadAll sels files).1, r.name ≠ "Total" := by
    cases mode with
    | single => exact h1
    | all =>
      intro r hr
      rcases mem_aggregate_names _ r hr with ⟨r0, hr0, hname⟩
      rw [← hname]
      exact h1 r0 hr0
    | multiple =>
      intro r hr
      rcases mem_aggregate_names _ r hr with ⟨r0, hr0, hname⟩
      rw [← hname]
      exact h1 r0 hr0
  refine ⟨h1, h2, ?_⟩
  intro c n p hp
  rcases mem_posPart _ _ _ (mem_top_table _ _ _ _ hp) with ⟨_, r, hr, hname, _⟩
  rw [← hname]
  exact h2 r hr

/-- Witness for C3 on a concrete single-session page. -/
theorem claim3_total_excluded_witness :
    ("B", (7 : ℚ)) ∈
      top_table (workingTable Mode.single (loadAll ["s1"] files5).1) "dps" 2
  ∧ ("B", (7 : ℚ)).1 ≠ "Total" :=
  ⟨by decide,
   (claim3_total_excluded Mode.single ["s1"] files5).2.2 "dps" 2 ("B", 7) (by decide)⟩

/-- C4 as stated is false: for a non-numeric field the aggregation does not
take the value of the first record encountered for the player, it takes the
first non-null value.  Player A has records in s1 then s2; the first record
carries no class value, yet the aggregated row shows the class of the
second record. -/
theorem claim4_counterexample :
    isNumericCol rsFirst "class" = false
  ∧ "class" ∈ columnsOf rsFirst
  ∧ (groupOf rsFirst "A").head? = some rA1
  ∧ getCell rA1 "class" = none
  ∧ aggRow rsFirst "A" ∈ aggregate rsFirst
  ∧ getCell (aggRow rsFirst "A") "class" = some (Val.str "Druid") :=
  ⟨by decide, by decide, by decide, by decide,
   List.mem_map_of_mem (aggRow rsFirst) (by decide), by decide⟩

/-- C4 amended: aggregation groups by player name (one output row per
distinct name, and the output names are exactly the distinct input names);
every numeric column is summed over the group; every remaining statistic
column takes the first NON-NULL value of the group in input order (pandas first()
skips nulls), absent if the group has none; the session-identifier field is
the sorted, de-duplicated, comma-joined contributing session set, with the
example of the spec itself, sessions b, a, a giving "a, b". -/
theorem claim4_aggregation (rs : List PRecord) (n : String)
    (hn : n ∈ rs.map (fun r => r.name)) :
    aggRow rs n ∈ aggregate rs
  ∧ (aggregate rs).map (fun r => r.name) = namesOf rs
  ∧ (aggRow rs n).name = n
  ∧ (∀ c, c ∈ columnsOf rs → isNumericCol rs c = true →
      getCell (aggRow rs n) c =
        some (Val.num (((groupOf rs n).map (fun r => cellNum r c)).sum)))
  ∧ (∀ c, c ∈ columnsOf rs → isNumericCol rs c = false →
      getCell (aggRow rs n) c =
        ((groupOf rs n).filterMap (fun r => getCell r c)).head?)
  ∧ (aggRow rs n).report_name =
      String.intercalate ", " (sortDedupStr ((groupOf rs n).map (fun r => r.report_name)))
  ∧ joinedReports rsJoin "P" = "a, b" := by
  refine ⟨List.mem_map_of_mem _ ((mem_namesOf rs n).mpr hn),
    aggregate_map_name rs, rfl, ?_, ?_, rfl, by decide⟩
  · intro c hc hnum
    rw [getCell_aggRow, if_pos hc]
    unfold aggVal
    rw [if_pos hnum]
    rfl
  · intro c hc hnum
    rw [getCell_aggRow, if_pos hc]
    unfold aggVal
    rw [if_neg (by simp [hnum])]
    rfl

/-- Witness for C4 amended, on the class/Druid data. -/
theorem claim4_aggregation_witness :
    "A" ∈ rsFirst.map (fun r => r.name)
  ∧ aggRow rsFirst "A" ∈ aggregate rsFirst :=
  ⟨by decide, (claim4_aggregation rsFirst "A" (by decide)).1⟩

/-- C5 as stated is false: the branch is on the selection mode, not on the
number of sessions in scope.  In Multiple Reports mode with exactly one
selected session the page still aggregates: on a session whose players sit
in order B, A the working table comes out grouped and name-sorted as A, B,
so it is not the concatenated list as-is. -/
theorem claim5_counterexample :
    (loadAll ["s1"] files5).1.map (fun r => r.report_name) = ["s1", "s1"]
  ∧ renderPage Mode.multiple ["s1"] files5 =
      Except.ok { table := workingTable Mode.multiple (loadAll ["s1"] files5).1,
                  warnings := [] }
  ∧ (workingTable Mode.multiple (loadAll ["s1"] files5).1).map (fun r => r.name) =
      ["A", "B"]
  ∧ (loadAll ["s1"] files5).1.map (fun r => r.name) = ["B", "A"]
  ∧ workingTable Mode.multiple (loadAll ["s1"] files5).1 ≠ (loadAll ["s1"] files5).1 := by
  refine ⟨by decide, rfl, by decide, by decide, ?_⟩
  intro h
  have h2 := congrArg (List.map (fun r : PRecord => r.name)) h
  revert h2
  decide

/-- C5 amended: the as-is path is exactly Single Report mode; All Reports
and Multiple Reports always aggregate, whatever the number of sessions in
scope (even one), and then the table is name-sorted. -/
theorem claim5_mode_branch (mode : Mode) (sels : List String)
    (files : List SessionFile) (out : PageOutput)
    (hok : renderPage mode sels files = Except.ok out) :
    out.table = (if mode = Mode.single then (loadAll sels files).1
                 else aggregate (loadAll sels files).1)
  ∧ (mode = Mode.single → out.table = (loadAll sels files).1)
  ∧ (mode ≠ Mode.single →
      out.table = aggregate (loadAll sels files).1
      ∧ (out.table.map (fun r => r.name)).Pairwise (fun a b => strLt a b = true)) := by
  have htab : out.table = workingTable mode (loadAll sels files).1 := by
    unfold renderPage at hok
    by_cases hcond : mode = Mode.multiple ∧ sels = []
    · rw [if_pos hcond] at hok
      simp at hok
    · rw [if_neg hcond] at hok
      by_cases hload : (loadAll sels files).1 = []
      · rw [if_pos hload] at hok
        simp at hok
      · rw [if_neg hload] at hok
        rw [← Except.ok.inj hok]
  cases mode with
  | single => exact ⟨by simpa using htab, fun _ => htab, fun hne => absurd rfl hne⟩
  | all =>
    refine ⟨by simpa using htab, fun hs => by simp at hs, fun _ => ⟨htab, ?_⟩⟩
    rw [htab]
    show ((aggregate (loadAll sels files).1).map (fun r => r.name)).Pairwise _
    rw [aggregate_map_name]
    exact namesOf_sorted _
  | multiple =>
    refine ⟨by simpa using htab, fun hs => by simp at hs, fun _ => ⟨htab, ?_⟩⟩
    rw [htab]
    show ((aggregate (loadAll sels files).1).map (fun r => r.name)).Pairwise _
    rw [aggregate_map_name]
    exact namesOf_sorted _

/-- Witness for C5 amended: single mode really returns the list as-is. -/
theorem claim5_mode_branch_witness :
    renderPage Mode.single ["s1"] files5 =
      Except.ok { table := (loadAll ["s1"] files5).1, warnings := [] }
  ∧ ({ table := (loadAll ["s1"] files5).1, warnings := [] } : PageOutput).table =
      (loadAll ["s1"] files5).1 :=
  ⟨rfl, (claim5_mode_branch Mode.single ["s1"] files5 _ rfl).2.1 rfl⟩

/-- C6: a malformed or unreadable file contributes no player record and
exactly one warning, and the other files around it load exactly as they
would without it, selected or not. -/
theorem claim6_loader_boundary (s m : String) (sels : List String)
    (pre post : List SessionFile) :
    loadSession s (FileContent.malformed m) =
      ([], ["Could not load " ++ s ++ ": " ++ m])
  ∧ (loadAll sels (pre ++ { name := s, content := FileContent.malformed m } :: post)).1 =
      (loadAll sels pre).1 ++ (loadAll sels post).1
  ∧ (s ∈ sels →
      (loadAll sels (pre ++ { name := s, content := FileContent.malformed m } :: post)).2 =
        (loadAll sels pre).2 ++
          ("Could not load " ++ s ++ ": " ++ m) :: (loadAll sels post).2)
  ∧ (s ∉ sels →
      loadAll sels (pre ++ { name := s, content := FileContent.malformed m } :: post) =
        loadAll sels (pre ++ post)) := by
  refine ⟨rfl, ?_, ?_, ?_⟩
  · rw [loadAll_append]
    have hstep : (loadAll sels ({ name := s, content := FileContent.malformed m } :: post)).1 =
        (loadAll sels post).1 := by
      by_cases hf : s ∈ sels <;> simp [loadAll, loadSession, hf]
    rw [hstep]
  · intro hf
    rw [loadAll_append]
    have hstep : (loadAll sels ({ name := s, content := FileContent.malformed m } :: post)).2 =
        ("Could not load " ++ s ++ ": " ++ m) :: (loadAll sels post).2 := by
      simp [loadAll, loadSession, hf]
    rw [hstep]
  · intro hf
    rw [loadAll_append, loadAll_append]
    have hstep : loadAll sels ({ name := s, content := FileContent.malformed m } :: post) =
        loadAll sels post := by
      simp [loadAll, hf]
    rw [hstep]

/-- Witness for C6 with one selected malformed file. -/
theorem claim6_loader_boundary_witness :
    ("a" : String) ∈ ["a"]
  ∧ (loadAll ["a"] ([] ++ { name := "a", content := FileContent.malformed "boom" } :: [])).2 =
      (loadAll ["a"] []).2 ++
        ("Could not load " ++ "a" ++ ": " ++ "boom") :: (loadAll ["a"] []).2 :=
  ⟨by decide, (claim6_loader_boundary "a" "boom" ["a"] [] []).2.2.1 (by decide)⟩

/-- C7 as stated is false: in single-session mode a counter that one record
carries and another lacks is a null cell of the working table, not zero.
Here dps is a numeric column of the frame, B is a working-table row, and
the dps cell of B is null. -/
theorem claim7_counterexample :
    isNumericCol rs7 "dps" = true
  ∧ "dps" ∈ columnsOf rs7
  ∧ rB7 ∈ workingTable Mode.single rs7
  ∧ getCell rB7 "dps" = none := by
  decide

/-- C7 amended: in aggregated mode every numeric column of every row holds
a number (a counter absent from the sources of a group sums as zero), while
in single-session mode an absent counter stays null; the positivity filter of every view admits only rows whose cell holds a strictly positive
number, so null cells never reach any view. -/
theorem claim7_numeric_cells (rs : List PRecord) :
    (∀ r ∈ aggregate rs, ∀ c, c ∈ columnsOf rs → isNumericCol rs c = true →
      ∃ q : ℚ, getCell r c = some (Val.num q))
  ∧ (∀ (c : String) (p : String × ℚ), p ∈ posPart rs c →
      0 < p.2 ∧ ∃ r ∈ rs, r.name = p.1 ∧ getCell r c = some (Val.num p.2)) := by
  refine ⟨?_, fun c p hp => mem_posPart rs c p hp⟩
  intro r hr c hc hnum
  rcases List.mem_map.mp hr with ⟨n, _, hre⟩
  refine ⟨sumNamed rs n c, ?_⟩
  rw [← hre, getCell_aggRow, if_pos hc]
  unfold aggVal
  rw [if_pos hnum]

/-- Witness for C7 amended on the dps/hps data. -/
theorem claim7_numeric_cells_witness :
    aggRow rs7 "A" ∈ aggregate rs7
  ∧ ∃ q : ℚ, getCell (aggRow rs7 "A") "dps" = some (Val.num q) :=
  ⟨List.mem_map_of_mem _ (by decide),
   (claim7_numeric_cells rs7).1 (aggRow rs7 "A")
     (List.mem_map_of_mem _ (by decide)) "dps" (by decide) (by decide)⟩

/-- C8: for a column numeric over the whole record set, aggregating an
already-aggregated prefix together with the rest gives each player the same
total as aggregating everything at once, the result is invariant under any
permutation of the concatenated records, the aggregated name list is
permutation-invariant too, and the total is exactly what the cell of the aggregated
row carries. -/
theorem claim8_sum_associative (A B C rs2 : List PRecord) (n c : String)
    (hnum : isNumericCol (A ++ B ++ C) c = true)
    (hp : (A ++ B ++ C).Perm rs2) :
    sumNamed (aggregate (aggregate (A ++ B) ++ C)) n c =
      sumNamed (aggregate (A ++ B ++ C)) n c
  ∧ sumNamed (aggregate rs2) n c = sumNamed (aggregate (A ++ B ++ C)) n c
  ∧ namesOf rs2 = namesOf (A ++ B ++ C)
  ∧ (c ∈ columnsOf (A ++ B ++ C) →
      getCell (aggRow (A ++ B ++ C) n) c =
        some (Val.num (sumNamed (A ++ B ++ C) n c))) := by
  have hsplit := hnum
  rw [isNumericCol_append, Bool.and_eq_true] at hsplit
  have hAB : isNumericCol (A ++ B) c = true := hsplit.1
  have hC : isNumericCol C c = true := hsplit.2
  have h1 : isNumericCol (aggregate (A ++ B) ++ C) c = true := by
    rw [isNumericCol_append, isNumericCol_aggregate _ _ hAB, hC]
    rfl
  refine ⟨?_, ?_, (namesOf_perm _ _ hp).symm, ?_⟩
  · rw [sumNamed_aggregate _ _ _ h1, sumNamed_append, sumNamed_aggregate _ _ _ hAB,
      sumNamed_aggregate _ _ _ hnum]
    simp [sumNamed_append, add_assoc]
  · have hnum2 : isNumericCol rs2 c = true := by
      rw [← isNumericCol_perm _ _ c hp]
      exact hnum
    rw [sumNamed_aggregate _ _ _ hnum2, sumNamed_aggregate _ _ _ hnum]
    exact (sumNamed_perm _ _ n c hp).symm
  · intro hc
    rw [getCell_aggRow, if_pos hc]
    unfold aggVal
    rw [if_pos hnum]

/-- Witness for C8 on three one-player sessions. -/
theorem claim8_sum_associative_witness :
    isNumericCol (aggA ++ aggB ++ aggC) "dps" = true
  ∧ (aggA ++ aggB ++ aggC).Perm (aggC ++ aggA ++ aggB)
  ∧ sumNamed (aggregate (aggC ++ aggA ++ aggB)) "A" "dps" =
      sumNamed (aggregate (aggA ++ aggB ++ aggC)) "A" "dps" :=
  ⟨by decide, by decide,
   (claim8_sum_associative aggA aggB aggC (aggC ++ aggA ++ aggB) "A" "dps"
     (by decide) (by decide)).2.1⟩

/-- C9 as stated is false in its final clause: an empty result is not the
only condition that halts the page render.  Here the selected session loads
fine and yields one player record, the pipeline up to the working table
succeeds, yet the full render halts: the player has no hps key, so the
hard-coded hps view (dashboard.py line 131) raises KeyError. -/
theorem claim9_counterexample :
    (loadAll ["s1"] files9).1 ≠ []
  ∧ renderPage Mode.single ["s1"] files9 =
      Except.ok { table := (loadAll ["s1"] files9).1, warnings := [] }
  ∧ renderFullPage Mode.single ["s1"] files9 =
      Except.error (PageHalt.viewCrash (ViewError.keyError "hps")) := by
  refine ⟨by decide, rfl, rfl⟩

/-- C9 amended: zero player records is surfaced as an empty-result
condition distinct from a parse failure (an empty Multiple Reports
selection halts with the dedicated empty-selection error before loading;
loading an empty result halts before any view; a successful pipeline
carries the load warnings, so a parse failure alone never halts) and it is
the only condition that halts the pipeline up to the working table — but
not the only condition that halts the page render: the full render fails
exactly when the records are empty or some hard-coded view column crashes
its view (absent column: KeyError; string-valued column: TypeError). -/
theorem claim9_empty_halts (mode : Mode) (sels : List String)
    (files : List SessionFile) :
    ((∃ e, renderPage mode sels files = Except.error e) ↔
      (loadAll sels files).1 = [])
  ∧ (mode = Mode.multiple → sels = [] →
      renderPage mode sels files = Except.error PageError.emptySelection)
  ∧ (∀ out, renderPage mode sels files = Except.ok out →
      out.table = workingTable mode (loadAll sels files).1
      ∧ out.warnings = (loadAll sels files).2
      ∧ (loadAll sels files).1 ≠ [])
  ∧ ((∃ h2, renderFullPage mode sels files = Except.error h2) ↔
      ((loadAll sels files).1 = [] ∨
        firstViewError (workingTable mode (loadAll sels files).1) viewColumns ≠ none))
  ∧ (∀ out, renderFullPage mode sels files = Except.ok out →
      out.table = workingTable mode (loadAll sels files).1
      ∧ out.warnings = (loadAll sels files).2
      ∧ (loadAll sels files).1 ≠ []
      ∧ firstViewError out.table viewColumns = none) := by
  by_cases hcond : mode = Mode.multiple ∧ sels = []
  · have hload : (loadAll sels files).1 = [] := by
      rw [hcond.2, loadAll_nil_selected]
    have hrp : renderPage mode sels files = Except.error PageError.emptySelection := by
      unfold renderPage
      rw [if_pos hcond]
    have hfull : renderFullPage mode sels files = Except.error PageHalt.emptySelection := by
      unfold renderFullPage
      rw [hrp]
    refine ⟨⟨fun _ => hload, fun _ => ⟨PageError.emptySelection, hrp⟩⟩,
      fun _ _ => hrp, ?_, ⟨fun _ => Or.inl hload,
        fun _ => ⟨PageHalt.emptySelection, hfull⟩⟩, ?_⟩
    · intro out hout
      rw [hrp] at hout
      simp at hout
    · intro out hout
      rw [hfull] at hout
      simp at hout
  · have hrp2 : renderPage mode sels files =
        (if (loadAll sels files).1 = [] then Except.error PageError.noData
         else Except.ok { table := workingTable mode (loadAll sels files).1,
                          warnings := (loadAll sels files).2 }) := by
      unfold renderPage
      rw [if_neg hcond]
    by_cases hload : (loadAll sels files).1 = []
    · rw [if_pos hload] at hrp2
      have hfull : renderFullPage mode sels files = Except.error PageHalt.noData := by
        unfold renderFullPage
        rw [hrp2]
      refine ⟨⟨fun _ => hload, fun _ => ⟨PageError.noData, hrp2⟩⟩, ?_, ?_,
        ⟨fun _ => Or.inl hload, fun _ => ⟨PageHalt.noData, hfull⟩⟩, ?_⟩
      · intro h1 h2
        exact absurd ⟨h1, h2⟩ hcond
      · intro out hout
        rw [hrp2] at hout
        simp at hout
      · intro out hout
        rw [hfull] at hout
        simp at hout
    · rw [if_neg hload] at hrp2
      have hfull : renderFullPage mode sels files =
          (match firstViewError (workingTable mode (loadAll sels files).1) viewColumns with
           | some e => Except.error (PageHalt.viewCrash e)
           | none =>
               Except.ok { table := workingTable mode (loadAll sels files).1,
                           warnings := (loadAll sels files).2 }) := by
        unfold renderFullPage
        rw [hrp2]
      rcases hfv : firstViewError (workingTable mode (loadAll sels files).1) viewColumns
        with _ | e
      · rw [hfv] at hfull
        refine ⟨⟨?_, fun h => absurd h hload⟩, ?_, ?_, ⟨?_, ?_⟩, ?_⟩
        · rintro ⟨e, he⟩
          rw [hrp2] at he
          simp at he
        · intro h1 h2
          exact absurd ⟨h1, h2⟩ hcond
        · intro out hout
          rw [hrp2] at hout
          rw [← Except.ok.inj hout]
          exact ⟨rfl, rfl, hload⟩
        · rintro ⟨h2, he⟩
          rw [hfull] at he
          simp at he
        · rintro (h2 | h2)
          · exact absurd h2 hload
          · exact absurd rfl h2
        · intro out hout
          rw [hfull] at hout
          rw [← Except.ok.inj hout]
          exact ⟨rfl, rfl, hload, hfv⟩
      · rw [hfv] at hfull
        refine ⟨⟨?_, fun h => absurd h hload⟩, ?_, ?_,
          ⟨fun _ => Or.inr (by simp), fun _ => ⟨_, hfull⟩⟩, ?_⟩
        · rintro ⟨e2, he⟩
          rw [hrp2] at he
          simp at he
        · intro h1 h2
          exact absurd ⟨h1, h2⟩ hcond
        · intro out hout
          rw [hrp2] at hout
          rw [← Except.ok.inj hout]
          exact ⟨rfl, rfl, hload⟩
        · intro out hout
          rw [hfull] at hout
          simp at hout

/-- Witness for C9: the empty multi-selection halts with the dedicated
error. -/
theorem claim9_empty_halts_witness :
    Mode.multiple = Mode.multiple
  ∧ ([] : List String) = []
  ∧ renderPage Mode.multiple [] [] = Except.error PageError.emptySelection :=
  ⟨rfl, rfl, (claim9_empty_halts Mode.multiple [] []).2.1 rfl rfl⟩

/-- C10: after aggregation the rows are in strictly ascending name order
(code-point order, as Python compares strings), and the row order is the
same for any permutation of the concatenated input records. -/
theorem claim10_aggregated_order (rs rs2 : List PRecord) (hp : rs.Perm rs2) :
    ((aggregate rs).map (fun r => r.name)).Pairwise (fun a b => strLt a b = true)
  ∧ (aggregate rs).map (fun r => r.name) = (aggregate rs2).map (fun r => r.name) := by
  refine ⟨?_, ?_⟩
  · rw [aggregate_map_name]
    exact namesOf_sorted rs
  · rw [aggregate_map_name, aggregate_map_name]
    exact namesOf_perm rs rs2 hp

/-- Witness for C10 on a two-player swap. -/
theorem claim10_aggregated_order_witness :
    rs7.Perm [rB7, rA7]
  ∧ (aggregate rs7).map (fun r => r.name) =
      (aggregate [rB7, rA7]).map (fun r => r.name) :=
  ⟨by decide, (claim10_aggregated_order rs7 [rB7, rA7] (by decide)).2⟩

end Dashboard
